import Mathlib

/-! RTOS: sensor sampling, debounced event counter and CRC-8 on the ESP32.

Shallow embedding of `src/code.cpp` and the properties proved about it.

* `uint8_t` values are natural numbers reduced modulo `2^8`.
* `unsigned long` (32 bits on the ESP32) values are natural numbers, and the
  subtraction of two of them is reduced modulo `2^32`.
* `int` (32 bits, signed) is an integer; `contador++` at `INT_MAX` is signed
  overflow, which C leaves undefined, so the interrupt handler has no result there.
* `float` is its IEEE-754 binary32 bit pattern, a natural number below `2^32`.
* A FreeRTOS queue written with `xQueueOverwrite` has length one: its content is an
  `Option`. A queue handle is optional too, `none` being `NULL`.
* The value of `millis()` and the value returned by the DHT driver come from outside
  the program; they are explicit arguments.
-/

namespace RTOS

/-! ## Integrity checker: `calcularCRC8` (source lines 109-118) -/

/-- One pass of the inner loop body of `calcularCRC8`,
`crc = (crc & 0x80) ? (crc << 1) ^ 0x07 : crc << 1;`
The right-hand side is computed in `int` and stored into a `uint8_t`. -/
def crcBitStep (crc : Nat) : Nat :=
  if crc &&& 0x80 ≠ 0 then ((crc <<< 1) ^^^ 0x07) % 256 else (crc <<< 1) % 256

/-- The inner loop `for (uint8_t j = 0; j < 8; j++)`, as `n` passes of its body. -/
def crcBitLoop : Nat → Nat → Nat
  | 0, crc => crc
  | n + 1, crc => crcBitLoop n (crcBitStep crc)

/-- One pass of the outer loop body: `crc ^= datos[i];` followed by the inner loop. -/
def crcByteStep (crc dato : Nat) : Nat :=
  crcBitLoop 8 ((crc ^^^ dato) % 256)

/-- The outer loop of `calcularCRC8` with accumulator `crc`; the list holds the bytes
`datos[i..longitud)` still to be read. -/
def crcLoop : List Nat → Nat → Nat
  | [], crc => crc
  | dato :: resto, crc => crcLoop resto (crcByteStep crc dato)

/-- Embedding of `uint8_t calcularCRC8(const uint8_t *datos, size_t longitud)`: the list is
the array `datos[0..longitud)`, and `crc` starts at `0x00`. -/
def calcularCRC8 (datos : List Nat) : Nat :=
  crcLoop datos 0x00

/-! ### Vocabulary for the checksum properties -/

/-- Flip bit `k` of the byte at index `i`; every other bit and the length are kept. -/
def flipBit : List Nat → Nat → Nat → List Nat
  | [], _, _ => []
  | x :: xs, 0, k => (x ^^^ 2 ^ k) :: xs
  | x :: xs, i + 1, k => x :: flipBit xs i k

/-- Inverse of eight passes of `crcBitStep` on byte values: each pass is undone by looking
at the lowest bit, which is set exactly when `0x07` was xor-ed in. -/
def crcBitLoopInv8 (y : Nat) : Nat :=
  let inv := fun (v : Nat) => if v &&& 1 ≠ 0 then ((v ^^^ 0x07) >>> 1) ||| 0x80 else v >>> 1
  inv (inv (inv (inv (inv (inv (inv (inv y)))))))

/-- The eight bits of a byte, most significant bit first. -/
def byteBits (b : Nat) : List Bool :=
  [b.testBit 7, b.testBit 6, b.testBit 5, b.testBit 4,
   b.testBit 3, b.testBit 2, b.testBit 1, b.testBit 0]

/-- The bits of a message, first byte first and most significant bit first. -/
def messageBits : List Nat → List Bool
  | [] => []
  | dato :: resto => byteBits dato ++ messageBits resto

/-- Horner evaluation of a bit sequence at `x`, first bit as the highest coefficient.
At `x = Polynomial.X` over `ZMod 2` this is the polynomial over GF(2) with these
coefficients; at `x = 2` over the naturals it is the number with these binary digits. -/
def evalBits {R : Type} [Semiring R] (x : R) (bits : List Bool) : R :=
  bits.foldl (fun acc b => acc * x + if b then 1 else 0) 0

/-- Bitwise exclusive or of two bit sequences. -/
def xorBits (as bs : List Bool) : List Bool := List.zipWith xor as bs

/-! ## Debounced event counter and sampling tasks (source lines 44-51, 65-101) -/

/-- Number of values of `unsigned long`, which is 32 bits wide on the ESP32. -/
def ULONG_MOD : Nat := 2 ^ 32

/-- Largest value of the 32-bit signed `int`. -/
def INT_MAX : Int := 2 ^ 31 - 1

/-- A FreeRTOS queue of length one, as `xQueueOverwrite` requires: its single slot is
empty or holds one item. -/
structure Cola (α : Type) where
  item : Option α
  deriving DecidableEq, Repr

/-- The test `isnan` on a `float`, given as its IEEE-754 binary32 bit pattern: the exponent
field is all ones and the fraction field is not zero. -/
def isnan (f : Nat) : Bool :=
  (f / 2 ^ 23) % 256 == 255 && f % 2 ^ 23 != 0

/-- The global variables the modelled functions read or write. The three `QueueHandle_t`
variables are optional handles: `none` is `NULL`, the value of a handle that names no queue. -/
structure Estado where
  contador : Int
  lastInterruptTime : Nat
  contadorQueue : Option (Cola Int)
  temperatureQueue : Option (Cola Nat)
  humedadQueue : Option (Cola Nat)
  deriving DecidableEq, Repr

/-- The state at program start: `contador = 0`, `lastInterruptTime = 0` (source lines 50-51),
and the queue handles of source lines 44-48 zero-initialised. No statement of the file
assigns a handle, so the handles are `NULL`. -/
def estadoInicial : Estado :=
  { contador := 0, lastInterruptTime := 0, contadorQueue := none,
    temperatureQueue := none, humedadQueue := none }

/-- An overwrite of a queue of length one: the item replaces whatever the slot held. -/
def xQueueOverwrite {α : Type} (_q : Cola α) (valor : α) : Cola α :=
  ⟨some valor⟩

/-- The call `xQueueOverwriteFromISR(handle, &valor, NULL)`, which the interrupt handler makes
without testing the handle. When the handle names a queue the item replaces its content; a
`NULL` handle names no queue, and nothing is stored. -/
def xQueueOverwriteFromISR {α : Type} (handle : Option (Cola α)) (valor : α) :
    Option (Cola α) :=
  match handle with
  | some q => some (xQueueOverwrite q valor)
  | none => none

/-- Embedding of `void IRAM_ATTR incrementarContador()`; `millis` is the value that the call
of `millis()` returns. The result is `none` when `contador++` would overflow `int`. -/
def incrementarContador (millis : Nat) (s : Estado) : Option Estado :=
  let interruptTime := millis % ULONG_MOD
  if (interruptTime + ULONG_MOD - s.lastInterruptTime % ULONG_MOD) % ULONG_MOD > 700 then
    if s.contador < INT_MAX then
      let valor := s.contador + 1
      some { s with contador := valor
                    contadorQueue := xQueueOverwriteFromISR s.contadorQueue valor
                    lastInterruptTime := interruptTime }
    else none
  else
    some { s with lastInterruptTime := interruptTime }

/-- A run of interrupts: `incrementarContador` called once per listed clock value, in order. -/
def runInterrupts : List Nat → Estado → Option Estado
  | [], s => some s
  | t :: ts, s => (incrementarContador t s).bind (runInterrupts ts)

/-- One pass of the `while (1)` body of `readTemperature`; `temperature` is the value returned
by `dht.readTemperature()`. The trailing `vTaskDelay` changes no variable. -/
def readTemperatureBody (temperature : Nat) (s : Estado) : Estado :=
  match s.temperatureQueue with
  | some q =>
    if !isnan temperature then { s with temperatureQueue := some (xQueueOverwrite q temperature) }
    else s
  | none => s

/-- One pass of the `while (1)` body of `readHumidity`; `humidity` is the value returned by
`dht.readHumidity()`. -/
def readHumidityBody (humidity : Nat) (s : Estado) : Estado :=
  match s.humedadQueue with
  | some q =>
    if !isnan humidity then { s with humedadQueue := some (xQueueOverwrite q humidity) }
    else s
  | none => s

/-- The task `readTemperature` run for as many passes as there are driver readings. -/
def readTemperature : List Nat → Estado → Estado
  | [], s => s
  | r :: rs, s => readTemperature rs (readTemperatureBody r s)

/-- The task `readHumidity` run for as many passes as there are driver readings. -/
def readHumidity : List Nat → Estado → Estado
  | [], s => s
  | r :: rs, s => readHumidity rs (readHumidityBody r s)

/-- The last reading of a sequence that is not NaN, if there is one. -/
def lastValid (lecturas : List Nat) : Option Nat :=
  (lecturas.filter (fun r => !isnan r)).getLast?

/-- The two logic levels that `digitalWrite` takes. -/
inductive Nivel where
  | LOW
  | HIGH
  deriving DecidableEq, Repr

/-- The constant `LED_PIN` of source line 25. -/
def LED_PIN : Nat := 4

/-- The calls into the platform that the power-mode controller makes, as observable effects. -/
inductive Efecto where
  | serialPrintln (texto : String)
  | digitalWrite (pin : Nat) (nivel : Nivel)
  | espDeepSleepStart
  deriving DecidableEq, Repr

/-- Embedding of `void enterDeepSleep()`: the effects of its three statements, in program
order. `esp_deep_sleep_start()` does not return. -/
def enterDeepSleep : List Efecto :=
  [Efecto.serialPrintln ("Entrando en modo Deep Sleep..."),
   Efecto.digitalWrite LED_PIN Nivel.LOW,
   Efecto.espDeepSleepStart]

/-- The level a pin is driven to by a sequence of effects: that of the last `digitalWrite` to
the pin, if there is one. -/
def nivelPin (pin : Nat) : List Efecto → Option Nivel
  | [] => none
  | Efecto.digitalWrite p nivel :: resto =>
    match nivelPin pin resto with
    | some n => some n
    | none => if p = pin then some nivel else none
  | _ :: resto => nivelPin pin resto

open Polynomial

/-! ## Checksum: reference vectors, bit flips, polynomial remainder -/

/-- C1: `calcularCRC8` returns `0x00` on the empty sequence, `0x00` on the one-byte sequence
`[0x00]` and `0xF3` on the one-byte sequence `[0xFF]`. -/
theorem calcularCRC8_reference_vectors :
    calcularCRC8 [] = 0x00 ∧ calcularCRC8 [0x00] = 0x00 ∧ calcularCRC8 [0xFF] = 0xF3 := by
  refine ⟨rfl, ?_, ?_⟩ <;> decide

theorem crcBitStep_lt (c : Nat) : crcBitStep c < 256 := by
  unfold crcBitStep
  split <;> exact Nat.mod_lt _ (by norm_num)

theorem crcBitLoop_lt (n c : Nat) (h : c < 256) : crcBitLoop n c < 256 := by
  induction n generalizing c with
  | zero => exact h
  | succ n ih => exact ih _ (crcBitStep_lt c)

set_option maxRecDepth 100000 in
theorem crcBitLoop8_inv : ∀ c < 256, crcBitLoopInv8 (crcBitLoop 8 c) = c := by
  decide

theorem crcBitLoop8_inj {c d : Nat} (hc : c < 256) (hd : d < 256)
    (h : crcBitLoop 8 c = crcBitLoop 8 d) : c = d := by
  have := congrArg crcBitLoopInv8 h
  rwa [crcBitLoop8_inv c hc, crcBitLoop8_inv d hd] at this

theorem crcByteStep_lt (c x : Nat) : crcByteStep c x < 256 :=
  crcBitLoop_lt 8 _ (Nat.mod_lt _ (by norm_num))

theorem xor_byte_lt {c x : Nat} (hc : c < 256) (hx : x < 256) : c ^^^ x < 256 :=
  Nat.xor_lt_two_pow (n := 8) hc hx

theorem crcByteStep_inj_crc {c d x : Nat} (hc : c < 256) (hd : d < 256) (hx : x < 256)
    (h : crcByteStep c x = crcByteStep d x) : c = d := by
  unfold crcByteStep at h
  rw [Nat.mod_eq_of_lt (xor_byte_lt hc hx), Nat.mod_eq_of_lt (xor_byte_lt hd hx)] at h
  exact Nat.xor_left_injective (crcBitLoop8_inj (xor_byte_lt hc hx) (xor_byte_lt hd hx) h)

theorem crcByteStep_inj_dato {c x y : Nat} (hc : c < 256) (hx : x < 256) (hy : y < 256)
    (h : crcByteStep c x = crcByteStep c y) : x = y := by
  unfold crcByteStep at h
  rw [Nat.mod_eq_of_lt (xor_byte_lt hc hx), Nat.mod_eq_of_lt (xor_byte_lt hc hy)] at h
  exact Nat.xor_right_injective (crcBitLoop8_inj (xor_byte_lt hc hx) (xor_byte_lt hc hy) h)

theorem crcLoop_inj_crc (datos : List Nat) (hb : ∀ x ∈ datos, x < 256) {c d : Nat}
    (hc : c < 256) (hd : d < 256) (h : crcLoop datos c = crcLoop datos d) : c = d := by
  induction datos generalizing c d with
  | nil => exact h
  | cons x xs ih =>
    have hx : x < 256 := hb x (List.mem_cons_self _ _)
    have := ih (fun y hy => hb y (List.mem_cons_of_mem _ hy))
      (crcByteStep_lt c x) (crcByteStep_lt d x) h
    exact crcByteStep_inj_crc hc hd hx this

theorem crcLoop_flipBit_ne (datos : List Nat) (hb : ∀ x ∈ datos, x < 256) (i k c : Nat)
    (hi : i < datos.length) (hk : k < 8) (hc : c < 256) :
    crcLoop (flipBit datos i k) c ≠ crcLoop datos c := by
  induction datos generalizing i c with
  | nil => simp at hi
  | cons x xs ih =>
    have hx : x < 256 := hb x (List.mem_cons_self _ _)
    have hxs : ∀ y ∈ xs, y < 256 := fun y hy => hb y (List.mem_cons_of_mem _ hy)
    cases i with
    | zero =>
      intro h
      have hp : 2 ^ k < 256 := by
        have : (2 : Nat) ^ k < 2 ^ 8 := Nat.pow_lt_pow_right (by norm_num) hk
        simpa using this
      have hx' : x ^^^ 2 ^ k < 256 := xor_byte_lt hx hp
      have h1 := crcLoop_inj_crc xs hxs (crcByteStep_lt _ _) (crcByteStep_lt _ _) h
      have h2 := crcByteStep_inj_dato hc hx' hx h1
      have h3 : x ^^^ 2 ^ k = x ^^^ 0 := by simpa using h2
      have h4 : 2 ^ k = 0 := Nat.xor_right_injective h3
      exact absurd h4 (by positivity)
    | succ i =>
      exact ih hxs i (crcByteStep c x) (by simpa using hi) (crcByteStep_lt c x)

/-- C2: flipping any single bit of a byte sequence (bit `k` of the byte at index `i`, the
length unchanged) changes the value returned by `calcularCRC8`. -/
theorem calcularCRC8_single_bit_flip (datos : List Nat) (i k : Nat)
    (hb : ∀ x ∈ datos, x < 256) (hi : i < datos.length) (hk : k < 8) :
    calcularCRC8 (flipBit datos i k) ≠ calcularCRC8 datos :=
  crcLoop_flipBit_ne datos hb i k 0 hi hk (by norm_num)

/-- Instance of C2 on the bytes `0x12, 0x34, 0x56`, flipping bit 5 of the middle byte. -/
theorem calcularCRC8_single_bit_flip_witness :
    calcularCRC8 (flipBit [0x12, 0x34, 0x56] 1 5) ≠ calcularCRC8 [0x12, 0x34, 0x56] :=
  calcularCRC8_single_bit_flip [0x12, 0x34, 0x56] 1 5 (by decide) (by decide) (by decide)


theorem foldl_horner {R : Type} [CommSemiring R] (x : R) (bits : List Bool) (a : R) :
    bits.foldl (fun acc b => acc * x + if b then 1 else 0) a
      = a * x ^ bits.length + evalBits x bits := by
  induction bits generalizing a with
  | nil => simp [evalBits]
  | cons b bs ih =>
    simp only [List.foldl_cons, List.length_cons, evalBits]
    rw [ih, ih (0 * x + _)]
    ring

theorem evalBits_cons {R : Type} [CommSemiring R] (x : R) (b : Bool) (bits : List Bool) :
    evalBits x (b :: bits) = (if b then 1 else 0) * x ^ bits.length + evalBits x bits := by
  simp only [evalBits, List.foldl_cons]
  rw [foldl_horner]
  simp [evalBits]

theorem evalBits_append {R : Type} [CommSemiring R] (x : R) (as bs : List Bool) :
    evalBits x (as ++ bs) = evalBits x as * x ^ bs.length + evalBits x bs := by
  simp only [evalBits, List.foldl_append]
  rw [foldl_horner]
  simp [evalBits]

theorem ite_xor_poly (a b : Bool) :
    ((if xor a b then 1 else 0) : (ZMod 2)[X]) = (if a then 1 else 0) + (if b then 1 else 0) := by
  cases a <;> cases b <;> simp
  exact (CharTwo.add_self_eq_zero (1 : (ZMod 2)[X])).symm

theorem evalBits_xorBits (as bs : List Bool) (h : as.length = bs.length) :
    evalBits (X : (ZMod 2)[X]) (xorBits as bs) = evalBits X as + evalBits X bs := by
  induction as generalizing bs with
  | nil =>
    cases bs with
    | nil => simp [xorBits, evalBits]
    | cons b bs => simp at h
  | cons a as ih =>
    cases bs with
    | nil => simp at h
    | cons b bs =>
      have hl : as.length = bs.length := by simpa using h
      have ih' := ih bs hl
      simp only [xorBits, List.zipWith_cons_cons] at ih' ⊢
      have hz : (List.zipWith xor as bs).length = bs.length := by simp [hl]
      rw [evalBits_cons, evalBits_cons, evalBits_cons, ih', hz, hl, ite_xor_poly]
      ring

theorem evalBits_degree_lt (bits : List Bool) :
    (evalBits (X : (ZMod 2)[X]) bits).degree < bits.length := by
  induction bits with
  | nil => simp [evalBits]
  | cons b bs ih =>
    rw [evalBits_cons]
    refine lt_of_le_of_lt (degree_add_le _ _) (max_lt ?_ ?_)
    · cases b
      · simp only [Bool.false_eq_true, if_false, zero_mul, degree_zero]
        exact WithBot.bot_lt_coe _
      · simp only [if_true, one_mul, List.length_cons]
        rw [degree_X_pow]
        exact_mod_cast Nat.lt_succ_self _
    · refine lt_trans ih ?_
      simp only [List.length_cons]
      exact_mod_cast Nat.lt_succ_self _

set_option maxRecDepth 100000 in
theorem byteBits_crcBitStep : ∀ c < 256, byteBits (crcBitStep c) =
    if c.testBit 7 then xorBits ((byteBits c).tail ++ [false]) (byteBits 0x07)
    else (byteBits c).tail ++ [false] := by
  decide

theorem byteBits_head_tail (c : Nat) : byteBits c = c.testBit 7 :: (byteBits c).tail := rfl

theorem byteBits_length (c : Nat) : (byteBits c).length = 8 := rfl

theorem crcPoly_monic : (X ^ 8 + X ^ 2 + X + 1 : (ZMod 2)[X]).Monic := by
  monicity!

theorem crcPoly_degree : (X ^ 8 + X ^ 2 + X + 1 : (ZMod 2)[X]).degree = 8 := by
  compute_degree!

theorem evalBits_crcBitStep (c : Nat) (hc : c < 256) :
    evalBits (X : (ZMod 2)[X]) (byteBits (crcBitStep c))
      = (evalBits X (byteBits c) * X) %ₘ (X ^ 8 + X ^ 2 + X + 1) := by
  have hlen : ((byteBits c).tail ++ [false]).length = 8 := rfl
  have hshift : evalBits (X : (ZMod 2)[X]) ((byteBits c).tail ++ [false])
      = evalBits X (byteBits c).tail * X := by
    rw [evalBits_append]; simp [evalBits]
  have hdeg : (evalBits (X : (ZMod 2)[X]) ((byteBits c).tail ++ [false])).degree < 8 := by
    have := evalBits_degree_lt ((byteBits c).tail ++ [false])
    rwa [hlen] at this
  have h7 : evalBits (X : (ZMod 2)[X]) (byteBits 0x07) = X ^ 2 + X + 1 := by
    have hb : byteBits 0x07 = [false, false, false, false, false, true, true, true] := by
      decide
    rw [hb]
    simp [evalBits]
    ring
  rw [byteBits_crcBitStep c hc]
  conv_rhs => rw [byteBits_head_tail c, evalBits_cons]
  have htl : (byteBits c).tail.length = 7 := rfl
  rw [htl]
  symm
  split
  · rename_i hb
    refine (div_modByMonic_unique 1 _ crcPoly_monic ⟨?_, ?_⟩).2
    · rw [evalBits_xorBits _ _ (by rw [hlen]; rfl), hshift, h7]
      have h2 : (X ^ 2 + X + 1 : (ZMod 2)[X]) + (X ^ 2 + X + 1) = 0 :=
        CharTwo.add_self_eq_zero _
      linear_combination h2
    · rw [crcPoly_degree]
      have := evalBits_degree_lt (xorBits ((byteBits c).tail ++ [false]) (byteBits 0x07))
      have hl : (xorBits ((byteBits c).tail ++ [false]) (byteBits 0x07)).length = 8 := rfl
      rwa [hl] at this
  · rename_i hb
    refine (div_modByMonic_unique 0 _ crcPoly_monic ⟨?_, ?_⟩).2
    · rw [hshift]
      simp [hb]
    · rw [crcPoly_degree]; exact hdeg

theorem modByMonic_mul_left (a b : (ZMod 2)[X]) :
    ((a %ₘ (X ^ 8 + X ^ 2 + X + 1)) * b) %ₘ (X ^ 8 + X ^ 2 + X + 1)
      = (a * b) %ₘ (X ^ 8 + X ^ 2 + X + 1) := by
  apply modByMonic_eq_of_dvd_sub crcPoly_monic
  refine ⟨-(a /ₘ (X ^ 8 + X ^ 2 + X + 1)) * b, ?_⟩
  have h := modByMonic_add_div a crcPoly_monic
  linear_combination b * h

theorem evalBits_byte_mod (c : Nat) :
    evalBits (X : (ZMod 2)[X]) (byteBits c) %ₘ (X ^ 8 + X ^ 2 + X + 1)
      = evalBits X (byteBits c) := by
  rw [modByMonic_eq_self_iff crcPoly_monic, crcPoly_degree]
  exact evalBits_degree_lt (byteBits c)

theorem evalBits_crcBitLoop (n c : Nat) (hc : c < 256) :
    evalBits (X : (ZMod 2)[X]) (byteBits (crcBitLoop n c))
      = (evalBits X (byteBits c) * X ^ n) %ₘ (X ^ 8 + X ^ 2 + X + 1) := by
  induction n generalizing c with
  | zero => simp [crcBitLoop, evalBits_byte_mod]
  | succ n ih =>
    rw [crcBitLoop, ih _ (crcBitStep_lt c), evalBits_crcBitStep c hc, modByMonic_mul_left]
    congr 1
    ring

theorem byteBits_xor_mod (c x : Nat) :
    byteBits ((c ^^^ x) % 256) = xorBits (byteBits c) (byteBits x) := by
  have key : ∀ i, i < 8 → ((c ^^^ x) % 256).testBit i = xor (c.testBit i) (x.testBit i) := by
    intro i hi
    have h : (256 : Nat) = 2 ^ 8 := by norm_num
    rw [h, Nat.testBit_mod_two_pow, Nat.testBit_xor]
    simp [hi]
  unfold byteBits xorBits
  rw [key 7 (by norm_num), key 6 (by norm_num), key 5 (by norm_num), key 4 (by norm_num),
    key 3 (by norm_num), key 2 (by norm_num), key 1 (by norm_num), key 0 (by norm_num)]
  rfl

theorem evalBits_crcByteStep (c x : Nat) :
    evalBits (X : (ZMod 2)[X]) (byteBits (crcByteStep c x))
      = ((evalBits X (byteBits c) + evalBits X (byteBits x)) * X ^ 8)
          %ₘ (X ^ 8 + X ^ 2 + X + 1) := by
  unfold crcByteStep
  rw [evalBits_crcBitLoop 8 _ (Nat.mod_lt _ (by norm_num)), byteBits_xor_mod,
    evalBits_xorBits (byteBits c) (byteBits x) rfl]

theorem messageBits_length (datos : List Nat) : (messageBits datos).length = 8 * datos.length := by
  induction datos with
  | nil => rfl
  | cons x xs ih => simp [messageBits, ih, byteBits_length]; ring

theorem evalBits_crcLoop (datos : List Nat) (c : Nat) :
    evalBits (X : (ZMod 2)[X]) (byteBits (crcLoop datos c))
      = (evalBits X (byteBits c) * X ^ (8 * datos.length)
          + evalBits X (messageBits datos) * X ^ 8) %ₘ (X ^ 8 + X ^ 2 + X + 1) := by
  induction datos generalizing c with
  | nil =>
    have h0 : evalBits (X : (ZMod 2)[X]) [] = 0 := rfl
    simp only [crcLoop, messageBits, List.length_nil, mul_zero, pow_zero, mul_one]
    rw [h0, zero_mul, add_zero, evalBits_byte_mod]
  | cons x xs ih =>
    rw [crcLoop, ih, evalBits_crcByteStep, add_modByMonic, modByMonic_mul_left,
      ← add_modByMonic, messageBits, evalBits_append, messageBits_length]
    congr 1
    simp only [List.length_cons]
    ring

theorem crcLoop_lt (datos : List Nat) (c : Nat) (hc : c < 256) : crcLoop datos c < 256 := by
  induction datos generalizing c with
  | nil => exact hc
  | cons x xs ih => exact ih _ (crcByteStep_lt c x)

/-- The polynomial `evalBits X bits` has the bits as its coefficients, the last bit being the
constant term. -/
theorem evalBits_coeff (bits : List Bool) (i : Nat) :
    (evalBits (X : (ZMod 2)[X]) bits).coeff i = if bits.reverse.getD i false then 1 else 0 := by
  induction bits using List.reverseRecOn generalizing i with
  | nil => simp [evalBits]
  | append_singleton bs b ih =>
    rw [evalBits_append, List.reverse_append]
    have h1 : evalBits (X : (ZMod 2)[X]) [b] = if b then 1 else 0 := by simp [evalBits]
    rw [h1]
    cases i with
    | zero => cases b <;> simp
    | succ i => cases b <;> simp [ih, coeff_one]

/-- C3: `calcularCRC8` is CRC-8 with polynomial 0x07, initial value 0x00, MSB-first. The
returned value is a byte, and the polynomial over GF(2) whose coefficients are its bits is the
remainder of `M(x) * x^8` modulo `x^8 + x^2 + x + 1`, where `M(x)` has the message bits as
coefficients, first byte first and most significant bit first. -/
theorem calcularCRC8_is_polynomial_remainder (datos : List Nat) :
    calcularCRC8 datos < 256 ∧
      evalBits (X : (ZMod 2)[X]) (byteBits (calcularCRC8 datos))
        = (evalBits X (messageBits datos) * X ^ 8) %ₘ (X ^ 8 + X ^ 2 + X + 1) := by
  refine ⟨crcLoop_lt datos 0 (by norm_num), ?_⟩
  rw [calcularCRC8, evalBits_crcLoop]
  have h0 : evalBits (X : (ZMod 2)[X]) (byteBits 0x00) = 0 := by
    have hb : byteBits 0x00 = [false, false, false, false, false, false, false, false] := by
      decide
    rw [hb]; simp [evalBits]
  rw [h0, zero_mul, zero_add]

/-! ## Debounced event counter and sampling tasks -/

theorem incrementarContador_rejected {t : Nat} {s : Estado}
    (h : (t % ULONG_MOD + ULONG_MOD - s.lastInterruptTime % ULONG_MOD) % ULONG_MOD ≤ 700) :
    incrementarContador t s = some { s with lastInterruptTime := t % ULONG_MOD } := by
  simp only [incrementarContador]
  rw [if_neg (by omega)]

theorem incrementarContador_accepted {t : Nat} {s : Estado}
    (h : (t % ULONG_MOD + ULONG_MOD - s.lastInterruptTime % ULONG_MOD) % ULONG_MOD > 700)
    (hc : s.contador < INT_MAX) :
    incrementarContador t s = some { s with contador := s.contador + 1
                                            contadorQueue :=
                                              xQueueOverwriteFromISR s.contadorQueue (s.contador + 1)
                                            lastInterruptTime := t % ULONG_MOD } := by
  simp only [incrementarContador]
  rw [if_pos h, if_pos hc]

theorem usub_of_le {a b : Nat} (hab : a ≤ b) (hb : b < ULONG_MOD) :
    (b % ULONG_MOD + ULONG_MOD - a % ULONG_MOD) % ULONG_MOD = b - a := by
  unfold ULONG_MOD at *
  norm_num at *
  omega

theorem incrementarContador_time {t : Nat} {s s' : Estado}
    (h : incrementarContador t s = some s') : s'.lastInterruptTime = t % ULONG_MOD := by
  simp only [incrementarContador] at h
  split at h
  · split at h
    · cases h; rfl
    · cases h
  · cases h; rfl

theorem runInterrupts_append (as bs : List Nat) (s : Estado) :
    runInterrupts (as ++ bs) s = (runInterrupts as s).bind (runInterrupts bs) := by
  induction as generalizing s with
  | nil => rfl
  | cons a as ih =>
    simp only [List.cons_append, runInterrupts]
    cases incrementarContador a s with
    | none => rfl
    | some s' => simpa using ih s'

theorem window_all_rejected (mid : List Nat) (t2 : Nat) (s : Estado)
    (hs : s.lastInterruptTime < ULONG_MOD)
    (hsorted : List.Pairwise (· ≤ ·) (mid ++ [t2]))
    (hlow : ∀ t ∈ mid ++ [t2], s.lastInterruptTime ≤ t)
    (ht2 : t2 < ULONG_MOD) (hwin : t2 - s.lastInterruptTime ≤ 700) :
    ∃ s3 s4, runInterrupts mid s = some s3 ∧ incrementarContador t2 s3 = some s4 ∧
      s3.contador = s.contador ∧ s3.contadorQueue = s.contadorQueue ∧
      s4.contador = s3.contador ∧ s4.contadorQueue = s3.contadorQueue := by
  induction mid generalizing s with
  | nil =>
    have hle : s.lastInterruptTime ≤ t2 := hlow t2 (by simp)
    have hrej := incrementarContador_rejected (t := t2) (s := s) (by
      rw [Nat.mod_eq_of_lt hs, ← Nat.mod_eq_of_lt hs, usub_of_le hle ht2]; exact hwin)
    exact ⟨s, _, rfl, hrej, rfl, rfl, rfl, rfl⟩
  | cons m ms ih =>
    have hm : s.lastInterruptTime ≤ m := hlow m (by simp)
    have hp := List.pairwise_cons.mp hsorted
    have hmt : m ≤ t2 := hp.1 t2 (by simp)
    have hmM : m < ULONG_MOD := lt_of_le_of_lt hmt ht2
    have hrej := incrementarContador_rejected (t := m) (s := s) (by
      rw [Nat.mod_eq_of_lt hs, ← Nat.mod_eq_of_lt hs, usub_of_le hm hmM]; omega)
    rw [Nat.mod_eq_of_lt hmM] at hrej
    obtain ⟨s3, s4, h1, h2, h3, h4, h5, h6⟩ :=
      ih { s with lastInterruptTime := m } hmM hp.2 (fun t ht => hp.1 t ht) (by
        show t2 - m ≤ 700
        omega)
    refine ⟨s3, s4, ?_, h2, h3, h4, h5, h6⟩
    simp only [runInterrupts, hrej, Option.some_bind]
    exact h1

/-- C4: debounce rejection. After a call at `t1` that was accepted (it incremented
`contador`), let further calls arrive at non-decreasing 32-bit clock values `mid` and then at
`t2` with `t2 - t1 <= 700` (700 included). Then all these calls return, and the call at `t2`
leaves `contador` and the counter queue unchanged; `contador` is still the value reached
at `t1`. -/
theorem debounce_rejects_within_window (s1 s2 : Estado) (t1 t2 : Nat) (mid : List Nat)
    (hcall : incrementarContador t1 s1 = some s2)
    (haccepted : s2.contador = s1.contador + 1)
    (hsorted : List.Pairwise (· ≤ ·) (t1 :: (mid ++ [t2])))
    (ht2 : t2 < ULONG_MOD) (hwin : t2 - t1 ≤ 700) :
    ∃ s3 s4, runInterrupts mid s2 = some s3 ∧ incrementarContador t2 s3 = some s4 ∧
      s4.contador = s3.contador ∧ s4.contadorQueue = s3.contadorQueue ∧
      s4.contador = s1.contador + 1 := by
  have hp := List.pairwise_cons.mp hsorted
  have ht1 : t1 < ULONG_MOD := lt_of_le_of_lt (hp.1 t2 (by simp)) ht2
  have hlast : s2.lastInterruptTime = t1 := by
    rw [incrementarContador_time hcall, Nat.mod_eq_of_lt ht1]
  obtain ⟨s3, s4, h1, h2, h3, _, h5, h6⟩ :=
    window_all_rejected mid t2 s2 (by rw [hlast]; exact ht1) hp.2
      (by rw [hlast]; exact hp.1) ht2 (by rw [hlast]; exact hwin)
  exact ⟨s3, s4, h1, h2, h5, h6, by rw [h5, h3, haccepted]⟩

/-- Instance of C4: accepted call at 1000, further calls at 1200, 1500 and 1700. -/
theorem debounce_rejects_within_window_witness :
    ∃ s3 s4, runInterrupts [1200, 1500] ⟨1, 1000, none, none, none⟩ = some s3 ∧
      incrementarContador 1700 s3 = some s4 ∧
      s4.contador = s3.contador ∧ s4.contadorQueue = s3.contadorQueue ∧
      s4.contador = estadoInicial.contador + 1 :=
  debounce_rejects_within_window estadoInicial ⟨1, 1000, none, none, none⟩ 1000 1700
    [1200, 1500] (by decide) (by decide) (by decide) (by decide) (by decide)

theorem incrementarContador_rejected_frame {t : Nat} {s s' : Estado}
    (hcall : incrementarContador t s = some s') (hrej : s'.contador = s.contador) :
    s' = { s with lastInterruptTime := t % ULONG_MOD } := by
  simp only [incrementarContador] at hcall
  split at hcall
  · split at hcall
    · cases hcall
      simp at hrej
    · cases hcall
  · cases hcall
    rfl

/-- C6 fails as stated: with `contador = 1` and `lastInterruptTime = 1000`, the call at 1500
does not increment `contador`, yet `lastInterruptTime` becomes 1500. -/
theorem rejected_call_updates_time_counterexample :
    ∃ s', incrementarContador 1500 ⟨1, 1000, none, none, none⟩ = some s' ∧
      s'.contador = 1 ∧ s'.lastInterruptTime = 1500 ∧ s'.lastInterruptTime ≠ 1000 :=
  ⟨⟨1, 1500, none, none, none⟩, by decide, by decide, by decide, by decide⟩

/-- C6 as amended: a call of `incrementarContador` at clock value `t` that does not increment
`contador` leaves the counter queue and the sensor queues unchanged, and sets
`lastInterruptTime` to `t` (as a 32-bit value); the timestamp is not preserved. -/
theorem rejected_call_frame (s s' : Estado) (t : Nat)
    (hcall : incrementarContador t s = some s') (hrej : s'.contador = s.contador) :
    s'.contadorQueue = s.contadorQueue ∧ s'.lastInterruptTime = t % ULONG_MOD ∧
      s'.temperatureQueue = s.temperatureQueue ∧ s'.humedadQueue = s.humedadQueue := by
  rw [incrementarContador_rejected_frame hcall hrej]
  exact ⟨rfl, rfl, rfl, rfl⟩

/-- Instance of amended C6: the rejected call at 1500 after a call at 1000. -/
theorem rejected_call_frame_witness :
    (⟨1, 1500, none, none, none⟩ : Estado).contadorQueue
        = (⟨1, 1000, none, none, none⟩ : Estado).contadorQueue ∧
      (⟨1, 1500, none, none, none⟩ : Estado).lastInterruptTime = 1500 % ULONG_MOD ∧
      (⟨1, 1500, none, none, none⟩ : Estado).temperatureQueue
        = (⟨1, 1000, none, none, none⟩ : Estado).temperatureQueue ∧
      (⟨1, 1500, none, none, none⟩ : Estado).humedadQueue
        = (⟨1, 1000, none, none, none⟩ : Estado).humedadQueue :=
  rejected_call_frame ⟨1, 1000, none, none, none⟩ ⟨1, 1500, none, none, none⟩ 1500
    (by decide) (by decide)

theorem readTemperatureBody_nan (s : Estado) (lectura : Nat) (hnan : isnan lectura = true) :
    readTemperatureBody lectura s = s := by
  unfold readTemperatureBody
  split
  · simp [hnan]
  · rfl

theorem readHumidityBody_nan (s : Estado) (lectura : Nat) (hnan : isnan lectura = true) :
    readHumidityBody lectura s = s := by
  unfold readHumidityBody
  split
  · simp [hnan]
  · rfl

/-- C8: discard-invalid. If the driver returns NaN, one pass of the loop of
`readTemperature` leaves `temperatureQueue` as it was, and one pass of the loop of
`readHumidity` leaves `humedadQueue` as it was. -/
theorem invalid_reading_discarded (s : Estado) (lectura : Nat) (hnan : isnan lectura = true) :
    (readTemperatureBody lectura s).temperatureQueue = s.temperatureQueue ∧
      (readHumidityBody lectura s).humedadQueue = s.humedadQueue := by
  rw [readTemperatureBody_nan s lectura hnan, readHumidityBody_nan s lectura hnan]
  exact ⟨rfl, rfl⟩

/-- Instance of C8 with the quiet NaN `0x7FC00000` and a temperature queue holding 25.0. -/
theorem invalid_reading_discarded_witness :
    (readTemperatureBody 0x7FC00000 ⟨0, 0, some ⟨none⟩, some ⟨some 0x41C80000⟩, some ⟨none⟩⟩).temperatureQueue
        = some ⟨some 0x41C80000⟩ ∧
      (readHumidityBody 0x7FC00000 ⟨0, 0, some ⟨none⟩, some ⟨some 0x41C80000⟩, some ⟨none⟩⟩).humedadQueue
        = some ⟨none⟩ :=
  invalid_reading_discarded ⟨0, 0, some ⟨none⟩, some ⟨some 0x41C80000⟩, some ⟨none⟩⟩ 0x7FC00000
    (by decide)

theorem lastValid_append_nan (rs : List Nat) (r : Nat) (h : isnan r = true) :
    lastValid (rs ++ [r]) = lastValid rs := by
  simp [lastValid, List.filter_append, h]

theorem lastValid_append_valid (rs : List Nat) (r : Nat) (h : isnan r = false) :
    lastValid (rs ++ [r]) = some r := by
  simp [lastValid, List.filter_append, h]

theorem readTemperature_append (as bs : List Nat) (s : Estado) :
    readTemperature (as ++ bs) s = readTemperature bs (readTemperature as s) := by
  induction as generalizing s with
  | nil => rfl
  | cons a as ih => exact ih (readTemperatureBody a s)

theorem readHumidity_append (as bs : List Nat) (s : Estado) :
    readHumidity (as ++ bs) s = readHumidity bs (readHumidity as s) := by
  induction as generalizing s with
  | nil => rfl
  | cons a as ih => exact ih (readHumidityBody a s)

theorem readTemperature_queue (lecturas : List Nat) (s : Estado)
    (h : s.temperatureQueue = some ⟨none⟩) :
    (readTemperature lecturas s).temperatureQueue = some ⟨lastValid lecturas⟩ := by
  induction lecturas using List.reverseRecOn with
  | nil => exact h
  | append_singleton rs r ih =>
    rw [readTemperature_append]
    simp only [readTemperature, readTemperatureBody, ih]
    cases hr : isnan r with
    | true => simp [lastValid_append_nan rs r hr, ih]
    | false => simp [lastValid_append_valid rs r hr, xQueueOverwrite]

theorem readHumidity_queue (lecturas : List Nat) (s : Estado)
    (h : s.humedadQueue = some ⟨none⟩) :
    (readHumidity lecturas s).humedadQueue = some ⟨lastValid lecturas⟩ := by
  induction lecturas using List.reverseRecOn with
  | nil => exact h
  | append_singleton rs r ih =>
    rw [readHumidity_append]
    simp only [readHumidity, readHumidityBody, ih]
    cases hr : isnan r with
    | true => simp [lastValid_append_nan rs r hr, ih]
    | false => simp [lastValid_append_valid rs r hr, xQueueOverwrite]

/-- C9: last-valid-sample invariant. With the queue created and empty, after the passes of
`readTemperature` (or `readHumidity`) on the driver readings `lecturas`, the queue holds the
last reading that is not NaN, and is empty when there is none: its single slot keeps nothing
of the earlier readings. -/
theorem channel_holds_last_valid_sample (s : Estado) (lecturas : List Nat)
    (htemp : s.temperatureQueue = some ⟨none⟩) (hhum : s.humedadQueue = some ⟨none⟩) :
    (readTemperature lecturas s).temperatureQueue
        = some ⟨(lecturas.filter (fun r => !isnan r)).getLast?⟩ ∧
      (readHumidity lecturas s).humedadQueue
        = some ⟨(lecturas.filter (fun r => !isnan r)).getLast?⟩ :=
  ⟨readTemperature_queue lecturas s htemp, readHumidity_queue lecturas s hhum⟩

/-- Instance of C9 on the readings 25.0, NaN, 26.0, NaN. -/
theorem channel_holds_last_valid_sample_witness :
    (readTemperature [0x41C80000, 0x7FC00000, 0x41D00000, 0x7FC00000]
        ⟨0, 0, some ⟨none⟩, some ⟨none⟩, some ⟨none⟩⟩).temperatureQueue
        = some ⟨([0x41C80000, 0x7FC00000, 0x41D00000, 0x7FC00000].filter
            (fun r => !isnan r)).getLast?⟩ ∧
      (readHumidity [0x41C80000, 0x7FC00000, 0x41D00000, 0x7FC00000]
        ⟨0, 0, some ⟨none⟩, some ⟨none⟩, some ⟨none⟩⟩).humedadQueue
        = some ⟨([0x41C80000, 0x7FC00000, 0x41D00000, 0x7FC00000].filter
            (fun r => !isnan r)).getLast?⟩ :=
  channel_holds_last_valid_sample ⟨0, 0, some ⟨none⟩, some ⟨none⟩, some ⟨none⟩⟩
    [0x41C80000, 0x7FC00000, 0x41D00000, 0x7FC00000] rfl rfl

theorem incrementarContador_contador {t : Nat} {s s' : Estado}
    (h : incrementarContador t s = some s') :
    s'.contador = s.contador ∨ s'.contador = s.contador + 1 := by
  simp only [incrementarContador] at h
  split at h
  · split at h
    · cases h; exact Or.inr rfl
    · cases h
  · cases h; exact Or.inl rfl

theorem incrementarContador_defined (t : Nat) (s : Estado) (hc : s.contador < INT_MAX) :
    ∃ s', incrementarContador t s = some s' := by
  simp only [incrementarContador]
  split
  · exact ⟨_, rfl⟩
  · exact ⟨_, rfl⟩

theorem runInterrupts_contador_le (ts : List Nat) (s s' : Estado)
    (h : runInterrupts ts s = some s') : s.contador ≤ s'.contador := by
  induction ts generalizing s with
  | nil => cases h; exact le_refl _
  | cons t ts ih =>
    simp only [runInterrupts] at h
    cases hstep : incrementarContador t s with
    | none => rw [hstep] at h; cases h
    | some s1 =>
      rw [hstep] at h
      have h1 := incrementarContador_contador hstep
      have h2 := ih s1 h
      omega

/-- C11: the event count is monotone. From a state with `contador < 2^31 - 1`, one call of
`incrementarContador` at any clock value returns and leaves `contador` unchanged or increased
by exactly 1; and along any run of calls from that state `contador` does not decrease. -/
theorem contador_monotone (s : Estado) (t : Nat) (hc : s.contador < 2 ^ 31 - 1) :
    (∃ s', incrementarContador t s = some s' ∧
        (s'.contador = s.contador ∨ s'.contador = s.contador + 1)) ∧
      (∀ pre post s1 s2, runInterrupts pre s = some s1 → runInterrupts post s1 = some s2 →
        s.contador ≤ s1.contador ∧ s1.contador ≤ s2.contador) := by
  refine ⟨?_, fun pre post s1 s2 h1 h2 =>
    ⟨runInterrupts_contador_le pre s s1 h1, runInterrupts_contador_le post s1 s2 h2⟩⟩
  obtain ⟨s', hs'⟩ := incrementarContador_defined t s hc
  exact ⟨s', hs', incrementarContador_contador hs'⟩

/-- Instance of C11 at the state after calls at 1000 and 1200, for a call at 3000. -/
theorem contador_monotone_witness :
    (∃ s', incrementarContador 3000 ⟨1, 1200, some ⟨some 1⟩, none, none⟩ = some s' ∧
        (s'.contador = (⟨1, 1200, some ⟨some 1⟩, none, none⟩ : Estado).contador ∨
          s'.contador = (⟨1, 1200, some ⟨some 1⟩, none, none⟩ : Estado).contador + 1)) ∧
      (∀ pre post s1 s2,
        runInterrupts pre ⟨1, 1200, some ⟨some 1⟩, none, none⟩ = some s1 →
        runInterrupts post s1 = some s2 →
        (⟨1, 1200, some ⟨some 1⟩, none, none⟩ : Estado).contador ≤ s1.contador ∧
          s1.contador ≤ s2.contador) :=
  contador_monotone ⟨1, 1200, some ⟨some 1⟩, none, none⟩ 3000 (by decide)

/-- C12: power-mode ordering. Among the effects of `enterDeepSleep`, the write of `LOW` to
`LED_PIN` comes before the call that puts the processor to sleep, the pin is at `LOW` when
that call is made, and the sleep call occurs once, as the last effect. -/
theorem enterDeepSleep_ordering :
    List.indexOf (Efecto.digitalWrite LED_PIN Nivel.LOW) enterDeepSleep
        < List.indexOf Efecto.espDeepSleepStart enterDeepSleep ∧
      nivelPin LED_PIN (enterDeepSleep.take (List.indexOf Efecto.espDeepSleepStart enterDeepSleep))
        = some Nivel.LOW ∧
      enterDeepSleep.getLast? = some Efecto.espDeepSleepStart ∧
      List.indexOf Efecto.espDeepSleepStart enterDeepSleep + 1 = enterDeepSleep.length := by
  decide

theorem readTemperatureBody_frame (r : Nat) (s : Estado) :
    (readTemperatureBody r s).contador = s.contador ∧
      (readTemperatureBody r s).lastInterruptTime = s.lastInterruptTime ∧
      (readTemperatureBody r s).contadorQueue = s.contadorQueue ∧
      (readTemperatureBody r s).humedadQueue = s.humedadQueue := by
  unfold readTemperatureBody
  split
  · split <;> exact ⟨rfl, rfl, rfl, rfl⟩
  · exact ⟨rfl, rfl, rfl, rfl⟩

theorem readHumidityBody_frame (r : Nat) (s : Estado) :
    (readHumidityBody r s).contador = s.contador ∧
      (readHumidityBody r s).lastInterruptTime = s.lastInterruptTime ∧
      (readHumidityBody r s).contadorQueue = s.contadorQueue ∧
      (readHumidityBody r s).temperatureQueue = s.temperatureQueue := by
  unfold readHumidityBody
  split
  · split <;> exact ⟨rfl, rfl, rfl, rfl⟩
  · exact ⟨rfl, rfl, rfl, rfl⟩

theorem incrementarContador_sensor_frame {t : Nat} {s s' : Estado}
    (h : incrementarContador t s = some s') :
    s'.temperatureQueue = s.temperatureQueue ∧ s'.humedadQueue = s.humedadQueue := by
  simp only [incrementarContador] at h
  split at h
  · split at h
    · cases h; exact ⟨rfl, rfl⟩
    · cases h
  · cases h; exact ⟨rfl, rfl⟩

/-- C13: single-writer discipline. One pass of `readTemperature` or of `readHumidity` leaves
`contador` and `lastInterruptTime` unchanged (and the counter queue and the other task's
queue as well), and a call of `incrementarContador` leaves the temperature and humidity
queues unchanged. -/
theorem single_writer_frame (s s' : Estado) (lectura t : Nat)
    (hcall : incrementarContador t s = some s') :
    ((readTemperatureBody lectura s).contador = s.contador ∧
        (readTemperatureBody lectura s).lastInterruptTime = s.lastInterruptTime ∧
        (readTemperatureBody lectura s).contadorQueue = s.contadorQueue ∧
        (readTemperatureBody lectura s).humedadQueue = s.humedadQueue) ∧
      ((readHumidityBody lectura s).contador = s.contador ∧
        (readHumidityBody lectura s).lastInterruptTime = s.lastInterruptTime ∧
        (readHumidityBody lectura s).contadorQueue = s.contadorQueue ∧
        (readHumidityBody lectura s).temperatureQueue = s.temperatureQueue) ∧
      (s'.temperatureQueue = s.temperatureQueue ∧ s'.humedadQueue = s.humedadQueue) :=
  ⟨readTemperatureBody_frame lectura s, readHumidityBody_frame lectura s,
    incrementarContador_sensor_frame hcall⟩

/-- Instance of C13: both queues created and holding 25.0 and 40.0, a valid reading 26.0, and
an accepted call at 1000. -/
theorem single_writer_frame_witness :
    ((readTemperatureBody 0x41D00000
          ⟨0, 0, some ⟨none⟩, some ⟨some 0x41C80000⟩, some ⟨some 0x42200000⟩⟩).contador = 0 ∧
        (readTemperatureBody 0x41D00000
          ⟨0, 0, some ⟨none⟩, some ⟨some 0x41C80000⟩, some ⟨some 0x42200000⟩⟩).lastInterruptTime = 0 ∧
        (readTemperatureBody 0x41D00000
          ⟨0, 0, some ⟨none⟩, some ⟨some 0x41C80000⟩, some ⟨some 0x42200000⟩⟩).contadorQueue
          = some ⟨none⟩ ∧
        (readTemperatureBody 0x41D00000
          ⟨0, 0, some ⟨none⟩, some ⟨some 0x41C80000⟩, some ⟨some 0x42200000⟩⟩).humedadQueue
          = some ⟨some 0x42200000⟩) ∧
      ((readHumidityBody 0x41D00000
          ⟨0, 0, some ⟨none⟩, some ⟨some 0x41C80000⟩, some ⟨some 0x42200000⟩⟩).contador = 0 ∧
        (readHumidityBody 0x41D00000
          ⟨0, 0, some ⟨none⟩, some ⟨some 0x41C80000⟩, some ⟨some 0x42200000⟩⟩).lastInterruptTime = 0 ∧
        (readHumidityBody 0x41D00000
          ⟨0, 0, some ⟨none⟩, some ⟨some 0x41C80000⟩, some ⟨some 0x42200000⟩⟩).contadorQueue
          = some ⟨none⟩ ∧
        (readHumidityBody 0x41D00000
          ⟨0, 0, some ⟨none⟩, some ⟨some 0x41C80000⟩, some ⟨some 0x42200000⟩⟩).temperatureQueue
          = some ⟨some 0x41C80000⟩) ∧
      ((⟨1, 1000, some ⟨some 1⟩, some ⟨some 0x41C80000⟩, some ⟨some 0x42200000⟩⟩ :
          Estado).temperatureQueue = some ⟨some 0x41C80000⟩ ∧
        (⟨1, 1000, some ⟨some 1⟩, some ⟨some 0x41C80000⟩, some ⟨some 0x42200000⟩⟩ :
          Estado).humedadQueue = some ⟨some 0x42200000⟩) :=
  single_writer_frame ⟨0, 0, some ⟨none⟩, some ⟨some 0x41C80000⟩, some ⟨some 0x42200000⟩⟩
    ⟨1, 1000, some ⟨some 1⟩, some ⟨some 0x41C80000⟩, some ⟨some 0x42200000⟩⟩ 0x41D00000 1000
    (by decide)

/-! ## Raw-arrival debounce, rollover and start-up window -/

theorem usub_add_mod {p d : Nat} (hp : p < ULONG_MOD) (hd : d < ULONG_MOD) :
    ((p + d) % ULONG_MOD % ULONG_MOD + ULONG_MOD - p % ULONG_MOD) % ULONG_MOD = d := by
  unfold ULONG_MOD at *
  norm_num at *
  omega

theorem incrementarContador_decision {t : Nat} {s : Estado} (hc : s.contador < INT_MAX) :
    ∃ s', incrementarContador t s = some s' ∧ s'.lastInterruptTime = t % ULONG_MOD ∧
      (s'.contador = s.contador + 1 ↔
        700 < (t % ULONG_MOD + ULONG_MOD - s.lastInterruptTime % ULONG_MOD) % ULONG_MOD) ∧
      (s'.contador = s.contador ↔
        (t % ULONG_MOD + ULONG_MOD - s.lastInterruptTime % ULONG_MOD) % ULONG_MOD ≤ 700) := by
  by_cases hgap :
      700 < (t % ULONG_MOD + ULONG_MOD - s.lastInterruptTime % ULONG_MOD) % ULONG_MOD
  · refine ⟨_, incrementarContador_accepted hgap hc, rfl, ?_, ?_⟩
    · exact ⟨fun _ => hgap, fun _ => rfl⟩
    · constructor
      · intro h
        have h' : s.contador + 1 = s.contador := h
        omega
      · intro h
        omega
  · refine ⟨_, incrementarContador_rejected (by omega), rfl, ?_, ?_⟩
    · constructor
      · intro h
        have h' : s.contador = s.contador + 1 := h
        omega
      · intro h
        exact absurd h hgap
    · exact ⟨fun _ => by omega, fun _ => rfl⟩

/-- C14: the debounce comparison is made against the last raw interrupt arrival. After any
call of `incrementarContador` at clock value `t0`, accepted or not, `lastInterruptTime` is
`t0`; and the next call, at `t1`, is accepted exactly when `t1 - t0 > 700` and leaves
`contador` unchanged exactly when `t1 - t0 <= 700`, whatever the earlier history. The bound on
`contador` is the condition under which `contador++` is defined. -/
theorem debounce_against_raw_arrival (s0 s1 : Estado) (t0 t1 : Nat)
    (hcall : incrementarContador t0 s0 = some s1)
    (hle : t0 ≤ t1) (ht1 : t1 < ULONG_MOD) (hc : s1.contador < INT_MAX) :
    s1.lastInterruptTime = t0 ∧
      ∃ s2, incrementarContador t1 s1 = some s2 ∧ s2.lastInterruptTime = t1 ∧
        (s2.contador = s1.contador + 1 ↔ 700 < t1 - t0) ∧
        (s2.contador = s1.contador ↔ t1 - t0 ≤ 700) := by
  have ht0 : t0 < ULONG_MOD := lt_of_le_of_lt hle ht1
  have hlast : s1.lastInterruptTime = t0 := by
    rw [incrementarContador_time hcall, Nat.mod_eq_of_lt ht0]
  refine ⟨hlast, ?_⟩
  obtain ⟨s2, h2, hl2, hacc, hrej⟩ := incrementarContador_decision (t := t1) hc
  rw [hlast, usub_of_le hle ht1] at hacc hrej
  exact ⟨s2, h2, by rw [hl2, Nat.mod_eq_of_lt ht1], hacc, hrej⟩

/-- Instance of C14: a rejected call at 1500 followed by a call at 1800. -/
theorem debounce_against_raw_arrival_witness :
    (⟨1, 1500, some ⟨some 1⟩, none, none⟩ : Estado).lastInterruptTime = 1500 ∧
      ∃ s2, incrementarContador 1800 ⟨1, 1500, some ⟨some 1⟩, none, none⟩ = some s2 ∧
        s2.lastInterruptTime = 1800 ∧
        (s2.contador = (⟨1, 1500, some ⟨some 1⟩, none, none⟩ : Estado).contador + 1 ↔
          700 < 1800 - 1500) ∧
        (s2.contador = (⟨1, 1500, some ⟨some 1⟩, none, none⟩ : Estado).contador ↔
          1800 - 1500 ≤ 700) :=
  debounce_against_raw_arrival ⟨1, 1000, some ⟨some 1⟩, none, none⟩
    ⟨1, 1500, some ⟨some 1⟩, none, none⟩ 1500 1800 (by decide) (by decide) (by decide) (by decide)

theorem crcLoop_append (as bs : List Nat) (c : Nat) :
    crcLoop (as ++ bs) c = crcLoop bs (crcLoop as c) := by
  induction as generalizing c with
  | nil => rfl
  | cons a as ih => exact ih (crcByteStep c a)

/-- C15: self-check. Appending to a byte sequence its own checksum gives a sequence whose
checksum is `0x00`. -/
theorem calcularCRC8_self_check (b : List Nat) :
    calcularCRC8 (b ++ [calcularCRC8 b]) = 0x00 := by
  unfold calcularCRC8
  rw [crcLoop_append]
  simp only [crcLoop, crcByteStep, Nat.xor_self]
  decide

theorem crcLoop_replicate_zero (n : Nat) (b : List Nat) :
    crcLoop (List.replicate n 0x00 ++ b) 0x00 = crcLoop b 0x00 := by
  induction n with
  | zero => rfl
  | succ n ih =>
    have h0 : crcByteStep 0x00 0x00 = 0x00 := by decide
    rw [List.replicate_succ, List.cons_append, crcLoop, h0]
    exact ih

/-- C16: leading-zero blindness. Prepending `n` zero bytes to a byte sequence does not change
its checksum, while the length grows by `n`: blocks of different length share a checksum. -/
theorem calcularCRC8_leading_zeros (b : List Nat) (n : Nat) :
    calcularCRC8 (List.replicate n 0x00 ++ b) = calcularCRC8 b ∧
      (List.replicate n 0x00 ++ b).length = n + b.length := by
  refine ⟨crcLoop_replicate_zero n b, ?_⟩
  simp

/-- C17: rollover safety. With a stored time `p` and an elapsed duration `d`, both 32-bit
values, the call at clock value `(p + d) mod 2^32` is accepted exactly when `d > 700` and
leaves `contador` unchanged exactly when `d <= 700`, whether or not `p + d` wrapped around.
The bound on `contador` is the condition under which `contador++` is defined. -/
theorem debounce_rollover_safe (s : Estado) (d : Nat)
    (hp : s.lastInterruptTime < 2 ^ 32) (hd : d < 2 ^ 32) (hc : s.contador < INT_MAX) :
    ∃ s', incrementarContador ((s.lastInterruptTime + d) % 2 ^ 32) s = some s' ∧
      (s'.contador = s.contador + 1 ↔ 700 < d) ∧
      (s'.contador = s.contador ↔ d ≤ 700) := by
  obtain ⟨s', h1, _, hacc, hrej⟩ :=
    incrementarContador_decision (t := (s.lastInterruptTime + d) % 2 ^ 32) hc
  have hM : ULONG_MOD = 2 ^ 32 := rfl
  rw [← hM] at hp hd h1 hacc hrej
  rw [usub_add_mod hp hd] at hacc hrej
  exact ⟨s', h1, hacc, hrej⟩

/-- Instance of C17 across the wrap: stored time `2^32 - 100`, elapsed 801 ms, call at 701. -/
theorem debounce_rollover_safe_witness :
    ∃ s', incrementarContador ((4294967196 + 801) % 2 ^ 32)
        ⟨3, 4294967196, some ⟨some 3⟩, none, none⟩ = some s' ∧
      (s'.contador = (⟨3, 4294967196, some ⟨some 3⟩, none, none⟩ : Estado).contador + 1 ↔
        700 < 801) ∧
      (s'.contador = (⟨3, 4294967196, some ⟨some 3⟩, none, none⟩ : Estado).contador ↔ 801 ≤ 700) :=
  debounce_rollover_safe ⟨3, 4294967196, some ⟨some 3⟩, none, none⟩ 801
    (by decide) (by decide) (by decide)

end RTOS
